import Mathlib

/-!
Verification of the cognify backend's categorization and chat-orchestration
core against its natural-language specification.

The Python services under backend/services are shallowly embedded here:
pure helpers become Lean functions, the SQLAlchemy session becomes explicit
state passing with transactional (all-or-nothing) commit semantics, and every
call to the external text-completion oracle is abstracted by a parameter that
ranges over all possible (well-formed or malformed) oracle outputs.  Machine
floats are modelled by rationals; Python string lower/strip are modelled at
the ASCII level, which is what every string in the repository's prompts and
labels uses.
-/

set_option linter.unusedVariables false

namespace Cognify

/-- ASCII model of Python str.lower applied to one character. -/
def lowerChar (c : Char) : Char :=
  if 'A' ≤ c ∧ c ≤ 'Z' then Char.ofNat (c.toNat + 32) else c

/-- ASCII model of Python str.lower. -/
def lowerStr (s : String) : String := ⟨s.data.map lowerChar⟩

/-- Whitespace recognised by the model of Python str.strip. -/
def wsChar (c : Char) : Bool := c = ' ' || c = '\t' || c = '\n' || c = '\r'

/-- Model of Python str.strip: drop whitespace from both ends. -/
def trimStr (s : String) : String :=
  ⟨((s.data.dropWhile wsChar).reverse.dropWhile wsChar).reverse⟩

/-- max(0.0, min(1.0, x)) as in ai_service.calculate_similarity_scores. -/
def clamp01 (q : ℚ) : ℚ := max 0 (min 1 q)

/-- min(1.0, max(0.0, x)) as in ai_service.get_entry_assignments. -/
def clampScore (q : ℚ) : ℚ := min 1 (max 0 q)

instance {ε α : Type} [DecidableEq ε] [DecidableEq α] :
    DecidableEq (Except ε α) := fun x y =>
  match x, y with
  | .ok a, .ok b =>
    if h : a = b then isTrue (by rw [h])
    else isFalse (fun hc => h (Except.ok.inj hc))
  | .error a, .error b =>
    if h : a = b then isTrue (by rw [h])
    else isFalse (fun hc => h (Except.error.inj hc))
  | .ok _, .error _ => isFalse (fun hc => Except.noConfusion hc)
  | .error _, .ok _ => isFalse (fun hc => Except.noConfusion hc)

/-! ## Oracle output model for the similarity-scoring call

json.loads applied to the oracle's text yields either a parse failure or an
arbitrary JSON value; the code then checks that the value is a list of the
right length and converts every element with float(...).  An element on which
float(...) raises is represented by Json.other; a numeric element by
Json.num.  ScoresResp.failure covers a transport error or any other exception
raised before parsing (the outer except branch). -/

inductive Json where
  | num (q : ℚ)
  | other
deriving DecidableEq

/-- float(score) in the comprehension: succeeds exactly on numeric elements. -/
def Json.asNum : Json → Option ℚ
  | .num q => some q
  | .other => none

inductive ScoresResp where
  | failure
  | notJson
  | notList
  | arr (xs : List Json)
deriving DecidableEq

/-- Embedding of ai_service.calculate_similarity_scores (ai_service.py:23-87).
The Anthropic call and json.loads are abstracted into resp; every failure
branch of the Python code returns the all-zero vector of the input length. -/
def calculate_similarity_scores (topics : List String) (query : String)
    (resp : ScoresResp) : List ℚ :=
  match resp with
  | .failure => List.replicate topics.length 0
  | .notJson => List.replicate topics.length 0
  | .notList => List.replicate topics.length 0
  | .arr xs =>
    if xs.length = topics.length then
      if xs.all (fun x => x.asNum.isSome) then
        xs.map (fun x => clamp01 (x.asNum.getD 0))
      else
        -- float(score) raised inside the comprehension; the outer
        -- except-branch returns zeros
        List.replicate topics.length 0
    else
      List.replicate topics.length 0

/-- The response shapes on which the code reaches the clamping branch. -/
def scoresWellFormed (topics : List String) : ScoresResp → Bool
  | .arr xs => xs.length == topics.length && xs.all (fun x => x.asNum.isSome)
  | _ => false

/-! ## Topics and topic search -/

structure Topic where
  topic_id : ℕ
  user_id : ℕ
  topic_name : String
deriving DecidableEq

/-- Descending-score comparison used by scored_topics.sort(key=score,
reverse=True) in topic_service.search_topics. -/
def scoreDesc (a b : Topic × ℚ) : Prop := b.2 ≤ a.2

instance : DecidableRel scoreDesc :=
  fun a b => inferInstanceAs (Decidable (b.2 ≤ a.2))

instance : IsTotal (Topic × ℚ) scoreDesc := ⟨fun a b => le_total b.2 a.2⟩

instance : IsTrans (Topic × ℚ) scoreDesc :=
  ⟨fun _ _ _ h1 h2 => le_trans h2 h1⟩

/-- Embedding of topic_service.search_topics (topic_service.py:215-255).
topics is the owner's topic list as returned by the database query; Python's
list.sort is stable, which insertionSort with scoreDesc reproduces. -/
def search_topics (topics : List Topic) (query : String) (resp : ScoresResp) :
    List (Topic × ℚ) :=
  if topics.isEmpty then []
  else
    let scores := calculate_similarity_scores (topics.map (·.topic_name)) query resp
    List.insertionSort scoreDesc (topics.zip scores)

/-! ## Entries and the recategorization engine -/

structure Entry where
  entry_id : ℕ
  user_id : ℕ
  topic_id : Option ℕ
  content : String
deriving DecidableEq

/-- One line of the oracle's reply to the batched entry-assignment prompt,
after Python's per-line parsing attempts.  noBar: the line has no bar
character; malformed: it has one but splitting does not give exactly three
parts or int()/float() raises; rec: a syntactically valid
entry_number|topic_name|confidence record. -/
inductive AssignLine where
  | noBar
  | malformed
  | record (entryNum : ℤ) (topicName : String) (confidence : ℚ)
deriving DecidableEq

structure Assignment where
  entry_id : ℕ
  topic_name : String
  confidence : ℚ
deriving DecidableEq

/-- Embedding of ai_service.get_entry_assignments (ai_service.py:248-326):
valid records with an in-range 1-based entry number are kept (topic name
stripped, confidence clamped); every other line is dropped.  The function
never checks the topic name, and nothing forces one record per entry. -/
def get_entry_assignments (entries : List Entry) (lines : List AssignLine) :
    List Assignment :=
  lines.foldl
    (fun acc line =>
      match line with
      | .record n name c =>
        if 1 ≤ n ∧ n ≤ (entries.length : ℤ) then
          match entries.get? (n - 1).toNat with
          | some e => acc ++ [⟨e.entry_id, trimStr name, clampScore c⟩]
          | none => acc
        else acc
      | _ => acc)
    []

/-- Embedding of ai_service.get_proposed_topics (ai_service.py:178-246).
oracle1 is the oracle's reply split into lines (none models the except
branch, which returns the sentinel).  Candidate names are stripped and
filtered, case-insensitively, against the names of kept_topics only. -/
def get_proposed_topics (kept_topics : List Topic) (kept_entries : List Entry)
    (entries_to_categorize : List Entry) (oracle1 : Option (List String)) :
    List String :=
  if entries_to_categorize.isEmpty then ["New Topic"]
  else
    match oracle1 with
    | none => ["New Topic"]
    | some ls =>
      let existing_topic_names := kept_topics.map (fun t => lowerStr t.topic_name)
      ls.filterMap (fun line =>
        let s := trimStr line
        if s ≠ "" ∧ lowerStr s ∉ existing_topic_names then some s else none)

/-- schemas.ProposedEntry restricted to the fields the services read. -/
structure PEntry where
  entry_id : ℕ
  content : String
  current_topic_id : Option ℕ
  proposed_topic_id : Option ℕ
  confidence_score : ℚ
deriving DecidableEq

/-- schemas.ProposedTopic restricted to the fields the services read. -/
structure PTopic where
  topic_id : Option ℕ
  topic_name : String
  is_new : Bool
  entries : List PEntry
  confidence_score : ℚ
deriving DecidableEq

/-- schemas.AutoCategorizeResponse. -/
structure AnalyzeOutput where
  proposed_topics : List PTopic
  uncategorized_entries : List PEntry
  instructions_used : Option String
deriving DecidableEq

/-- Append a proposed entry to the first proposed topic carrying the given
topic id; none models the StopIteration of the next(...) lookup. -/
def appendEntryById : List PTopic → ℕ → PEntry → Option (List PTopic)
  | [], _, _ => none
  | t :: ts, tid, pe =>
    if t.topic_id = some tid then
      some ({ t with entries := t.entries ++ [pe] } :: ts)
    else
      (appendEntryById ts tid pe).map (t :: ·)

/-- The loop that copies entries of kept topics into the proposal
(topic_service.py:348-361), also accumulating kept entry ids in order. -/
def addKeptEntries (keep : List ℕ) :
    List Entry → List PTopic → List ℕ → Except Unit (List PTopic × List ℕ)
  | [], proposed, keptIds => .ok (proposed, keptIds)
  | e :: rest, proposed, keptIds =>
    match e.topic_id with
    | some tid =>
      if tid ∈ keep then
        match appendEntryById proposed tid
            ⟨e.entry_id, e.content, e.topic_id, e.topic_id, 1⟩ with
        | some proposed' => addKeptEntries keep rest proposed' (keptIds ++ [e.entry_id])
        | none => .error ()
      else addKeptEntries keep rest proposed keptIds
    | none => addKeptEntries keep rest proposed keptIds

/-- Append the proposed entry built from assignment a and entry e to the
first proposed topic named a.topic_name (topic_service.py:400-414); none
models the StopIteration of the next(...) topic lookup. -/
def assignToTopic : List PTopic → Assignment → Entry → Option (List PTopic)
  | [], _, _ => none
  | t :: ts, a, e =>
    if t.topic_name = a.topic_name then
      some ({ t with entries :=
        t.entries ++ [⟨e.entry_id, e.content, e.topic_id, t.topic_id, a.confidence⟩] } :: ts)
    else
      (assignToTopic ts a e).map (t :: ·)

/-- The loop over parsed assignments (topic_service.py:395-414). -/
def processAssignments (entries_to_categorize : List Entry) :
    List Assignment → List PTopic → Except Unit (List PTopic)
  | [], proposed => .ok proposed
  | a :: rest, proposed =>
    match entries_to_categorize.find? (fun e => e.entry_id = a.entry_id) with
    | none => .error ()
    | some e =>
      match assignToTopic proposed a e with
      | none => .error ()
      | some proposed' => processAssignments entries_to_categorize rest proposed'

/-- Mean of the assigned entries' confidences (topic_service.py:419). -/
def meanConfidence (es : List PEntry) : ℚ :=
  (es.map (·.confidence_score)).sum / es.length

/-- Embedding of topic_service.analyze_categorization
(topic_service.py:316-441).  entries and existing_topics are the owner's
rows; oracle1/oracle2 abstract the two oracle calls; .error models the paths
on which the except-branch raises HTTP 500 (a next(...) lookup failing). -/
def analyze_categorization (entries : List Entry) (existing_topics : List Topic)
    (topics_to_keep : List ℕ) (instructions : Option String)
    (oracle1 : Option (List String)) (oracle2 : List AssignLine) :
    Except Unit AnalyzeOutput :=
  let kept_topics := existing_topics.filter (fun t => t.topic_id ∈ topics_to_keep)
  let proposed0 : List PTopic :=
    kept_topics.map (fun t => ⟨some t.topic_id, t.topic_name, false, [], 1⟩)
  match addKeptEntries topics_to_keep entries proposed0 [] with
  | .error e => .error e
  | .ok (proposed1, keptIds) =>
    let entries_to_categorize := entries.filter (fun e => e.entry_id ∉ keptIds)
    match
      (if entries_to_categorize.isEmpty then
        (.ok proposed1 : Except Unit (List PTopic))
      else
        let new_topic_names := get_proposed_topics kept_topics
          (entries.filter (fun e => e.entry_id ∈ keptIds)) entries_to_categorize oracle1
        let proposed2 := proposed1 ++
          new_topic_names.map (fun nm => (⟨none, nm, true, [], 0⟩ : PTopic))
        let assignments := get_entry_assignments entries_to_categorize oracle2
        match processAssignments entries_to_categorize assignments proposed2 with
        | .error e => .error e
        | .ok proposed3 =>
          .ok (proposed3.map (fun t =>
            if t.is_new && !t.entries.isEmpty then
              { t with confidence_score := meanConfidence t.entries }
            else t)))
    with
    | .error e => .error e
    | .ok proposedFinal =>
      -- Filter out any new topics that did not get any entries
      .ok ⟨proposedFinal.filter (fun t => !t.entries.isEmpty || !t.is_new),
           [], instructions⟩

/-- All entry ids listed anywhere in a proposal. -/
def outputEntryIds (o : AnalyzeOutput) : List ℕ :=
  (o.proposed_topics.map (fun t => t.entries.map (·.entry_id))).flatten
    ++ o.uncategorized_entries.map (·.entry_id)

/-! ## The categorization apply step

The SQLAlchemy session is modelled by a DBState threaded explicitly.  A
transaction either commits as a whole or is rolled back: the wrapper returns
the untouched input state on any failure, exactly what db.rollback() leaves
visible.  Storage-failure injection: budget counts how many storage
operations (flush, update, commit) succeed before one raises; none means no
injected failure.  The commit step enforces the Entry.topic_id foreign key
declared in models.py. -/

structure DBState where
  topics : List Topic
  entries : List Entry
  next_topic_id : ℕ
deriving DecidableEq

/-- schemas.ApplyCategorizeRequest. -/
structure ApplyChanges where
  proposed_topics : List PTopic
  uncategorized_entries : List PEntry
deriving DecidableEq

/-- One storage operation out of an injected-failure budget. -/
def tick : Option ℕ → Except Unit (Option ℕ)
  | none => .ok none
  | some 0 => .error ()
  | some (n + 1) => .ok (some n)

/-- Phase 1 of topic_service.apply_categorization (topic_service.py:460-481):
create every is_new topic in proposal order, recording name to new id; a later
duplicate name overwrites the dict entry, which cons plus first-match lookup
reproduces. -/
def createNewTopics (user : ℕ) :
    List PTopic → DBState → List (String × ℕ) → Option ℕ →
    Except Unit (DBState × List (String × ℕ) × Option ℕ)
  | [], s, m, b => .ok (s, m, b)
  | pt :: rest, s, m, b =>
    if pt.is_new then
      match tick b with
      | .error e => .error e
      | .ok b' =>
        let tid := s.next_topic_id
        let s' : DBState :=
          { s with topics := s.topics ++ [⟨tid, user, pt.topic_name⟩],
                   next_topic_id := tid + 1 }
        createNewTopics user rest s' ((pt.topic_name, tid) :: m) b'
    else createNewTopics user rest s m b

/-- db.query(Entry).filter(entry_id, user_id).first() followed by setting
topic_id; entry_id is the primary key, so at most one row matches. -/
def setEntryTopic (s : DBState) (user eid : ℕ) (target : Option ℕ) : DBState :=
  { s with entries := s.entries.map (fun e =>
      if e.entry_id = eid ∧ e.user_id = user then { e with topic_id := target } else e) }

/-- Inner loop of phase 2 (topic_service.py:498-515) for one proposed topic. -/
def moveEntriesOfTopic (user : ℕ) (target : Option ℕ) :
    List PEntry → DBState → Option ℕ → Except Unit (DBState × Option ℕ)
  | [], s, b => .ok (s, b)
  | pe :: rest, s, b =>
    if pe.current_topic_id ≠ target then
      match tick b with
      | .error e => .error e
      | .ok b' =>
        moveEntriesOfTopic user target rest (setEntryTopic s user pe.entry_id target) b'
    else moveEntriesOfTopic user target rest s b

/-- Phase 2 of apply_categorization (topic_service.py:484-515): for every
proposed topic the target id is its own id for existing topics and the
freshly created id for new ones (KeyError on a missing map entry is the
error branch). -/
def moveEntries (user : ℕ) (m : List (String × ℕ)) :
    List PTopic → DBState → Option ℕ → Except Unit (DBState × Option ℕ)
  | [], s, b => .ok (s, b)
  | pt :: rest, s, b =>
    match
      (if pt.is_new then
        match m.lookup pt.topic_name with
        | some tid => (.ok (some tid) : Except Unit (Option ℕ))
        | none => .error ()
      else .ok pt.topic_id)
    with
    | .error e => .error e
    | .ok target =>
      match moveEntriesOfTopic user target pt.entries s b with
      | .error e => .error e
      | .ok (s', b') => moveEntries user m rest s' b'

/-- Phase 3 of apply_categorization (topic_service.py:518-534): set every
listed entry's topic reference to absent. -/
def uncategorizeEntries (user : ℕ) :
    List PEntry → DBState → Option ℕ → Except Unit (DBState × Option ℕ)
  | [], s, b => .ok (s, b)
  | pe :: rest, s, b =>
    match tick b with
    | .error e => .error e
    | .ok b' => uncategorizeEntries user rest (setEntryTopic s user pe.entry_id none) b'

/-- The Entry.topic_id foreign key of models.py, checked by the database at
commit. -/
def fkOk (s : DBState) : Bool :=
  s.entries.all (fun e =>
    match e.topic_id with
    | none => true
    | some t => s.topics.any (fun tp => tp.topic_id = t))

/-- The transaction body of topic_service.apply_categorization
(topic_service.py:444-562). -/
def runApply (s : DBState) (user : ℕ) (changes : ApplyChanges)
    (budget : Option ℕ) : Except Unit DBState :=
  match createNewTopics user changes.proposed_topics s [] budget with
  | .error e => .error e
  | .ok (s1, m, b1) =>
    match moveEntries user m changes.proposed_topics s1 b1 with
    | .error e => .error e
    | .ok (s2, b2) =>
      match uncategorizeEntries user changes.uncategorized_entries s2 b2 with
      | .error e => .error e
      | .ok (s3, b3) =>
        match tick b3 with    -- db.commit() itself may fail
        | .error e => .error e
        | .ok _ => if fkOk s3 then .ok s3 else .error ()

/-- Embedding of topic_service.apply_categorization including rollback: the
second component is the state left visible in storage (the new state on
commit, the untouched input state after db.rollback()). -/
def apply_categorization (s : DBState) (user : ℕ) (changes : ApplyChanges)
    (budget : Option ℕ) : Except Unit DBState × DBState :=
  match runApply s user changes budget with
  | .ok s' => (.ok s', s')
  | .error _ => (.error (), s)

/-! ## Topic deletion -/

inductive HErr where
  | notFound
  | forbidden
  | internal
deriving DecidableEq

/-- Embedding of topic_service.delete_topic (topic_service.py:125-160): after
the ownership check, every entry carrying the topic id is deleted (the delete
query has no user filter), then the topic row itself. -/
def delete_topic (s : DBState) (topic_id user_id : ℕ) : Except HErr DBState :=
  match s.topics.find? (fun t => t.topic_id = topic_id) with
  | none => .error .notFound
  | some t =>
    if t.user_id ≠ user_id then .error .forbidden
    else
      .ok { s with
        entries := s.entries.filter (fun e => e.topic_id ≠ some topic_id),
        topics := s.topics.filter (fun tp => tp.topic_id ≠ topic_id) }

/-! ## Chat orchestrator

Threads and messages become explicit lists; timestamps are not modelled (no
claim mentions them).  The two oracle calls of the per-message pipeline are
abstracted: analyze_message already catches every failure and returns a
possibly-empty validated tool-request set, the tools are read-only so tool
execution never changes state, and generate_response maps its oracle outcome
to plain text (the except branch returns a fixed apology string instead of
raising). -/

structure ChatThreadR where
  thread_id : ℕ
  user_id : ℕ
  topic_id : Option ℤ
  title : String
  status : String
deriving DecidableEq

structure ChatMessageR where
  message_id : ℕ
  thread_id : ℕ
  user_id : ℕ
  content : String
  role : String
deriving DecidableEq

structure ChatState where
  threads : List ChatThreadR
  messages : List ChatMessageR
  entries : List Entry
  next_thread_id : ℕ
  next_message_id : ℕ
deriving DecidableEq

/-- Outcome of the response-generation oracle call: the raw text, or any
exception (transport failure, timeout, malformed reply object). -/
inductive GenResult where
  | ok (text : String)
  | failure
deriving DecidableEq

/-- The fallback literal of ai_service.generate_response's except branch. -/
def apologyText : String :=
  "I apologize, but I encountered an error while processing your request. Please try again."

/-- Embedding of ai_service.generate_response (ai_service.py:684-742): the
oracle's text is stripped; every exception is caught and replaced by the
apology sentence, so the function never raises. -/
def generate_response : GenResult → String
  | .ok t => trimStr t
  | .failure => apologyText

/-- Embedding of chat_service.search_entries_tool (chat_service.py:332-357).
The body ignores the query ("Temporarily return all entries instead of
searching") and returns every entry of the user. -/
def search_entries_tool (entries : List Entry) (user_id : ℕ) (query : String) :
    List Entry :=
  entries.filter (fun e => e.user_id = user_id)

/-- chat_service.create_chat_message (chat_service.py:152-175) restricted to
the fields the claims mention: append the message and allocate its id. -/
def create_chat_message (s : ChatState) (user_id thread_id : ℕ)
    (content role : String) : ChatState × ChatMessageR :=
  let msg : ChatMessageR := ⟨s.next_message_id, thread_id, user_id, content, role⟩
  ({ s with messages := s.messages ++ [msg],
            next_message_id := s.next_message_id + 1 }, msg)

/-- chat_service.get_or_create_thread (chat_service.py:229-264) as used by
process_message (topic_id=None): an existing thread is looked up by id and
owner only - its status is never read - and otherwise a fresh active thread
titled "New Chat" with absent topic scope is created.  Python's falsy test
means thread_id == 0 also takes the creation path. -/
def get_or_create_thread (s : ChatState) (user_id : ℕ)
    (thread_id : Option ℕ) : Except HErr (ChatState × ChatThreadR) :=
  match thread_id with
  | some tid =>
    if tid ≠ 0 then
      match s.threads.find? (fun t => t.thread_id = tid ∧ t.user_id = user_id) with
      | some t => .ok (s, t)
      | none => .error .notFound
    else
      let t : ChatThreadR := ⟨s.next_thread_id, user_id, none, "New Chat", "active"⟩
      .ok ({ s with threads := s.threads ++ [t],
                    next_thread_id := s.next_thread_id + 1 }, t)
  | none =>
    let t : ChatThreadR := ⟨s.next_thread_id, user_id, none, "New Chat", "active"⟩
    .ok ({ s with threads := s.threads ++ [t],
                  next_thread_id := s.next_thread_id + 1 }, t)

/-- Embedding of chat_service.process_message (chat_service.py:413-592):
resolve the thread, persist the user message, run the tool-selection oracle
and the read-only tools (state-invariant, absorbed into gen), run response
generation, persist its text as the assistant message, return it. -/
def process_message (s : ChatState) (user_id : ℕ) (content : String)
    (thread_id : Option ℕ) (gen : GenResult) :
    Except HErr (ChatState × ChatMessageR) :=
  match get_or_create_thread s user_id thread_id with
  | .error e => .error e
  | .ok (s1, thread) =>
    let (s2, _userMsg) := create_chat_message s1 user_id thread.thread_id content "user"
    let ai_response := generate_response gen
    let (s3, responseMsg) :=
      create_chat_message s2 user_id thread.thread_id ai_response "assistant"
    .ok (s3, responseMsg)

/-! ## Concrete states for witnesses and counterexamples -/

/-- A chat state with one active thread and no messages. -/
def c1State : ChatState := ⟨[⟨1, 1, none, "T", "active"⟩], [], [], 2, 1⟩

/-- The assistant message produced from the successful generation "hello". -/
def c1Asst : ChatMessageR := ⟨2, 1, 1, "hello", "assistant"⟩

/-- The state after processing "hi" with a successful generation. -/
def c1StateAfter : ChatState :=
  ⟨[⟨1, 1, none, "T", "active"⟩], [⟨1, 1, 1, "hi", "user"⟩, c1Asst], [], 2, 3⟩

/-- The assistant message fabricated when generation fails. -/
def c1FailMsg : ChatMessageR := ⟨2, 1, 1, apologyText, "assistant"⟩

/-- The state after processing "hi" with a failed generation. -/
def c1FailState : ChatState :=
  ⟨[⟨1, 1, none, "T", "active"⟩], [⟨1, 1, 1, "hi", "user"⟩, c1FailMsg], [], 2, 3⟩

/-- A chat state whose only thread is archived. -/
def c8State : ChatState := ⟨[⟨1, 1, none, "T", "archived"⟩], [], [], 2, 1⟩

/-- The assistant message appended to the archived thread. -/
def c8Msg : ChatMessageR := ⟨2, 1, 1, "reply", "assistant"⟩

/-- The state after posting "hello" to the archived thread. -/
def c8After : ChatState :=
  ⟨[⟨1, 1, none, "T", "archived"⟩], [⟨1, 1, 1, "hello", "user"⟩, c8Msg], [], 2, 3⟩

/-- A database state where topic 10 belongs to user 1 and entry 20 to user 2. -/
def c2State : DBState := ⟨[⟨10, 1, "T"⟩], [⟨20, 2, none, "c"⟩], 11⟩

/-- User 2's apply request pointing their entry at user 1's topic 10. -/
def c2Changes : ApplyChanges :=
  ⟨[⟨some 10, "T", false, [⟨20, "c", none, some 10, 1⟩], 1⟩], []⟩

/-- The committed state: entry 20 now references foreign topic 10. -/
def c2After : DBState := ⟨[⟨10, 1, "T"⟩], [⟨20, 2, some 10, "c"⟩], 11⟩

/-- An empty database for the apply-step witness. -/
def c2wState : DBState := ⟨[], [], 1⟩

/-- An apply request creating a single new topic. -/
def c2wChanges : ApplyChanges := ⟨[⟨none, "N", true, [], 1⟩], []⟩

/-- The state after the witness apply run commits. -/
def c2wAfter : DBState := ⟨[⟨1, 1, "N"⟩], [], 2⟩

/-! ## Shared helper lemmas -/

theorem clamp01_bounds (q : ℚ) : 0 ≤ clamp01 q ∧ clamp01 q ≤ 1 := by
  constructor
  · exact le_max_left 0 _
  · exact max_le zero_le_one (min_le_left 1 q)

theorem calc_scores_length (topics : List String) (query : String)
    (resp : ScoresResp) :
    (calculate_similarity_scores topics query resp).length = topics.length := by
  cases resp with
  | failure => simp [calculate_similarity_scores]
  | notJson => simp [calculate_similarity_scores]
  | notList => simp [calculate_similarity_scores]
  | arr xs =>
    simp only [calculate_similarity_scores]
    split
    · split
      · simpa using ‹xs.length = topics.length›
      · simp
    · simp

theorem calc_scores_bounds (topics : List String) (query : String)
    (resp : ScoresResp) :
    ∀ s ∈ calculate_similarity_scores topics query resp, 0 ≤ s ∧ s ≤ 1 := by
  intro s hs
  cases resp with
  | failure =>
    simp [calculate_similarity_scores, List.eq_of_mem_replicate hs]
  | notJson =>
    simp [calculate_similarity_scores, List.eq_of_mem_replicate hs]
  | notList =>
    simp [calculate_similarity_scores, List.eq_of_mem_replicate hs]
  | arr xs =>
    simp only [calculate_similarity_scores] at hs
    split at hs
    · split at hs
      · rcases List.mem_map.mp hs with ⟨x, _, hx⟩
        exact hx ▸ clamp01_bounds _
      · simp [List.eq_of_mem_replicate hs]
    · simp [List.eq_of_mem_replicate hs]

theorem calc_scores_malformed (topics : List String) (query : String)
    (resp : ScoresResp) (h : scoresWellFormed topics resp = false) :
    calculate_similarity_scores topics query resp
      = List.replicate topics.length 0 := by
  cases resp with
  | failure => rfl
  | notJson => rfl
  | notList => rfl
  | arr xs =>
    simp only [calculate_similarity_scores]
    simp only [scoresWellFormed] at h
    split
    · split
      · exfalso
        rw [Bool.and_eq_false_iff] at h
        rcases h with h | h
        · exact absurd (beq_iff_eq.mpr ‹xs.length = topics.length›) (by simp [h])
        · exact absurd ‹xs.all (fun x => x.asNum.isSome) = true› (by simp [h])
      · rfl
    · rfl

/-! ## C5 -/

/-- C5: calculate_similarity_scores returns exactly one score per input
label, each clamped to [0,1]; on a malformed or unparseable oracle output,
or on a length mismatch, it returns the all-zero vector of the input length.
The model is a total function because every exception path of the Python
code is caught and mapped to the zero vector, so no exception escapes. -/
theorem calculate_similarity_scores_spec (topics : List String)
    (query : String) (resp : ScoresResp) :
    (calculate_similarity_scores topics query resp).length = topics.length
    ∧ (∀ s ∈ calculate_similarity_scores topics query resp, 0 ≤ s ∧ s ≤ 1)
    ∧ (scoresWellFormed topics resp = false →
        calculate_similarity_scores topics query resp
          = List.replicate topics.length 0) :=
  ⟨calc_scores_length topics query resp,
   calc_scores_bounds topics query resp,
   calc_scores_malformed topics query resp⟩

/-- Witness for C5 at a concrete malformed response. -/
theorem calculate_similarity_scores_spec_witness :
    scoresWellFormed ["Machine Learning", "Health"] ScoresResp.notJson = false
    ∧ calculate_similarity_scores ["Machine Learning", "Health"]
        "neural networks" ScoresResp.notJson = List.replicate 2 0 :=
  ⟨by decide,
   (calculate_similarity_scores_spec ["Machine Learning", "Health"]
      "neural networks" ScoresResp.notJson).2.2 (by decide)⟩

/-! ## C4 -/

/-- C4: at the failing input, search_entries_tool returns the requesting
user's entry although its content does not contain the query in any sense
(the code ignores the query entirely and returns all of the user's entries);
entries of other users are still excluded. -/
theorem search_entries_tool_ignores_query :
    search_entries_tool
      [⟨1, 7, none, "banana"⟩, ⟨2, 8, none, "apple pie"⟩] 7 "apple"
      = [⟨1, 7, none, "banana"⟩]
    ∧ ¬ ("apple".data <:+: "banana".data) := by
  constructor
  · decide
  · decide

/-! ## C10 -/

/-- C10: a successful delete_topic removes every entry assigned to the
deleted topic from storage (they are deleted, not moved to uncategorized):
afterwards no stored entry carries that topic id. -/
theorem delete_topic_removes_entries (s : DBState) (topic_id user_id : ℕ)
    (s' : DBState) (h : delete_topic s topic_id user_id = .ok s') :
    s'.entries = s.entries.filter (fun e => e.topic_id ≠ some topic_id)
    ∧ ∀ e ∈ s'.entries, e.topic_id ≠ some topic_id := by
  unfold delete_topic at h
  cases hf : s.topics.find? (fun t => t.topic_id = topic_id) with
  | none => rw [hf] at h; exact absurd h (by simp)
  | some t =>
    rw [hf] at h
    by_cases hu : t.user_id ≠ user_id
    · simp [hu] at h
    · simp only [hu, if_false] at h
      cases h
      refine ⟨rfl, ?_⟩
      intro e he
      have := (List.mem_filter.mp he).2
      simpa using this

/-- Witness for C10 at a concrete state. -/
theorem delete_topic_removes_entries_witness :
    (⟨[], [⟨6, 1, none, "y"⟩], 2⟩ : DBState).entries
      = (⟨[⟨1, 1, "A"⟩], [⟨5, 1, some 1, "x"⟩, ⟨6, 1, none, "y"⟩], 2⟩ :
          DBState).entries.filter (fun e => e.topic_id ≠ some 1)
    ∧ ∀ e ∈ (⟨[], [⟨6, 1, none, "y"⟩], 2⟩ : DBState).entries,
        e.topic_id ≠ some 1 :=
  delete_topic_removes_entries
    ⟨[⟨1, 1, "A"⟩], [⟨5, 1, some 1, "x"⟩, ⟨6, 1, none, "y"⟩], 2⟩ 1 1
    ⟨[], [⟨6, 1, none, "y"⟩], 2⟩ (by decide)

/-! ## C6 -/

/-- C6: search_topics returns a permutation of the input topics (nothing
filtered out), every score clamped to [0,1], sorted non-increasingly by
score, with ties kept in the topics' original insertion order (the stable
sort of the scored pair list). -/
theorem search_topics_spec (topics : List Topic) (query : String)
    (resp : ScoresResp) :
    ((search_topics topics query resp).map Prod.fst).Perm topics
    ∧ (∀ p ∈ search_topics topics query resp, 0 ≤ p.2 ∧ p.2 ≤ 1)
    ∧ List.Sorted scoreDesc (search_topics topics query resp)
    ∧ (∀ a b : Topic × ℚ, a.2 = b.2 →
        [a, b].Sublist
          (topics.zip
            (calculate_similarity_scores (topics.map (·.topic_name)) query resp)) →
        [a, b].Sublist (search_topics topics query resp)) := by
  by_cases hE : topics.isEmpty
  · have hnil : topics = [] := List.isEmpty_iff.mp hE
    subst hnil
    refine ⟨by simp [search_topics], by simp [search_topics], ?_, ?_⟩
    · simp [search_topics, List.Sorted]
    · intro a b _ hsub
      simp at hsub
  · have hsort : search_topics topics query resp
        = List.insertionSort scoreDesc
            (topics.zip
              (calculate_similarity_scores (topics.map (·.topic_name)) query resp)) := by
      simp [search_topics, hE]
    have hperm :
        (List.insertionSort scoreDesc
          (topics.zip
            (calculate_similarity_scores (topics.map (·.topic_name)) query resp))).Perm
          (topics.zip
            (calculate_similarity_scores (topics.map (·.topic_name)) query resp)) :=
      List.perm_insertionSort _ _
    refine ⟨?_, ?_, ?_, ?_⟩
    · rw [hsort]
      have hlen : topics.length ≤
          (calculate_similarity_scores (topics.map (·.topic_name)) query resp).length := by
        rw [calc_scores_length]
        simp
      calc (List.map Prod.fst
              (List.insertionSort scoreDesc
                (topics.zip
                  (calculate_similarity_scores (topics.map (·.topic_name)) query resp)))).Perm
            (List.map Prod.fst
              (topics.zip
                (calculate_similarity_scores (topics.map (·.topic_name)) query resp))) :=
            hperm.map _
        _ = topics := List.map_fst_zip _ _ hlen
    · intro p hp
      rw [hsort] at hp
      have hpz := hperm.mem_iff.mp hp
      have : p.2 ∈ calculate_similarity_scores (topics.map (·.topic_name)) query resp := by
        have := List.of_mem_zip (a := p.1) (b := p.2) (by simpa using hpz)
        exact this.2
      exact calc_scores_bounds _ _ _ _ this
    · rw [hsort]
      exact List.sorted_insertionSort scoreDesc _
    · intro a b htie hsub
      rw [hsort]
      exact List.pair_sublist_insertionSort (le_of_eq htie.symm) hsub

/-- Witness for C6: two topics with equal concrete scores stay in insertion
order. -/
theorem search_topics_spec_witness :
    ((⟨1, 1, "Machine Learning"⟩, (1 : ℚ)) = ((⟨1, 1, "Machine Learning"⟩, (1 : ℚ)) : Topic × ℚ)
      → (1 : ℚ) = 1)
    ∧ [((⟨1, 1, "Machine Learning"⟩, (1 : ℚ)) : Topic × ℚ), (⟨2, 1, "Health"⟩, 1)].Sublist
        ([(⟨1, 1, "Machine Learning"⟩ : Topic), ⟨2, 1, "Health"⟩].zip
          (calculate_similarity_scores
            ([(⟨1, 1, "Machine Learning"⟩ : Topic), ⟨2, 1, "Health"⟩].map (·.topic_name))
            "neural networks" (ScoresResp.arr [.num 1, .num 1])))
    ∧ [((⟨1, 1, "Machine Learning"⟩, (1 : ℚ)) : Topic × ℚ), (⟨2, 1, "Health"⟩, 1)].Sublist
        (search_topics [⟨1, 1, "Machine Learning"⟩, ⟨2, 1, "Health"⟩]
          "neural networks" (ScoresResp.arr [.num 1, .num 1])) :=
  ⟨fun _ => rfl, by decide,
   (search_topics_spec [⟨1, 1, "Machine Learning"⟩, ⟨2, 1, "Health"⟩]
      "neural networks" (ScoresResp.arr [.num 1, .num 1])).2.2.2
      (⟨1, 1, "Machine Learning"⟩, 1) (⟨2, 1, "Health"⟩, 1) rfl (by decide)⟩

/-! ## C1 and C8: the chat per-message pipeline -/

theorem get_or_create_thread_state (s : ChatState) (u : ℕ) (tid : Option ℕ)
    (s1 : ChatState) (t : ChatThreadR)
    (h : get_or_create_thread s u tid = .ok (s1, t)) :
    s1.messages = s.messages ∧ s1.next_message_id = s.next_message_id := by
  cases tid with
  | none => cases h; exact ⟨rfl, rfl⟩
  | some n =>
    simp only [get_or_create_thread] at h
    by_cases h0 : n ≠ 0
    · rw [if_pos h0] at h
      cases hf : s.threads.find? (fun th => th.thread_id = n ∧ th.user_id = u) with
      | none => rw [hf] at h; exact absurd h (by simp)
      | some t' => rw [hf] at h; cases h; exact ⟨rfl, rfl⟩
    · rw [if_neg h0] at h; cases h; exact ⟨rfl, rfl⟩

/-- C1 (amended): process_message persists the user message before the
generation call; whenever it succeeds, storage holds exactly the previous
messages followed by the user message and then the assistant message.  A
failure of the response-generation oracle is never surfaced: whether the
call errors does not depend on the generation outcome, and on generation
failure the persisted assistant message carries the fixed apology text
rather than an error reaching the caller. -/
theorem process_message_pipeline (s : ChatState) (user : ℕ) (content : String)
    (tid : Option ℕ) (gen : GenResult) :
    (∀ s' m, process_message s user content tid gen = .ok (s', m) →
        s'.messages = s.messages ++
          [⟨s.next_message_id, m.thread_id, user, content, "user"⟩, m]
        ∧ m.message_id = s.next_message_id + 1
        ∧ m.user_id = user ∧ m.role = "assistant"
        ∧ m.content = generate_response gen)
    ∧ ((process_message s user content tid gen).isOk
        = (process_message s user content tid GenResult.failure).isOk)
    ∧ generate_response GenResult.failure = apologyText := by
  cases hg : get_or_create_thread s user tid with
  | error e =>
    refine ⟨?_, ?_, rfl⟩
    · intro s' m h
      rw [process_message, hg] at h
      exact absurd h (by simp)
    · simp [process_message, hg]
  | ok p =>
    obtain ⟨s1, th⟩ := p
    have hmsg := get_or_create_thread_state s user tid s1 th hg
    refine ⟨?_, ?_, rfl⟩
    · intro s' m h
      rw [process_message, hg] at h
      simp only [create_chat_message, Except.ok.injEq, Prod.mk.injEq] at h
      obtain ⟨hs', hm⟩ := h
      subst hs'; subst hm
      refine ⟨?_, ?_, rfl, rfl, rfl⟩
      · simp [hmsg.1, hmsg.2]
      · simp [hmsg.2]
    · simp only [process_message, hg]
      rfl

/-- Witness for C1 at a concrete successful run. -/
theorem process_message_pipeline_witness :
    c1StateAfter.messages = c1State.messages ++
      [⟨c1State.next_message_id, c1Asst.thread_id, 1, "hi", "user"⟩, c1Asst]
    ∧ c1Asst.message_id = c1State.next_message_id + 1
    ∧ c1Asst.user_id = 1 ∧ c1Asst.role = "assistant"
    ∧ c1Asst.content = generate_response (GenResult.ok "hello") :=
  (process_message_pipeline c1State 1 "hi" (some 1) (GenResult.ok "hello")).1
    c1StateAfter c1Asst (by decide)

/-- C1 is false as stated: when the response-generation oracle fails,
process_message still returns success and a fabricated apology is persisted
as the assistant message (the user message is persisted, but no error is
surfaced and an assistant message is written). -/
theorem process_message_gen_failure_ce :
    process_message c1State 1 "hi" (some 1) GenResult.failure
      = .ok (c1FailState, c1FailMsg)
    ∧ c1FailMsg.role = "assistant"
    ∧ c1FailMsg.content = apologyText
    ∧ c1FailMsg ∈ c1FailState.messages
    ∧ (⟨1, 1, 1, "hi", "user"⟩ : ChatMessageR) ∈ c1FailState.messages := by
  refine ⟨by decide, rfl, rfl, by decide, by decide⟩

/-- C8 (amended): a thread's status is never consulted in the message
pipeline: sending a message to an archived thread owned by the caller
succeeds, appends the user and assistant messages, and leaves every thread
(and its archived status) unchanged. -/
theorem archived_thread_accepts_messages (s : ChatState) (user tid : ℕ)
    (content : String) (gen : GenResult) (t : ChatThreadR)
    (ht : t ∈ s.threads) (hid : t.thread_id = tid) (hu : t.user_id = user)
    (hst : t.status = "archived") (h0 : tid ≠ 0) :
    (process_message s user content (some tid) gen).isOk = true
    ∧ (∀ s' m, process_message s user content (some tid) gen = .ok (s', m) →
        s'.messages.length = s.messages.length + 2 ∧ s'.threads = s.threads) := by
  have hsome : (s.threads.find? (fun th => th.thread_id = tid ∧ th.user_id = user)).isSome := by
    refine List.find?_isSome.mpr ⟨t, ht, ?_⟩
    simp [hid, hu]
  obtain ⟨t', hf⟩ := Option.isSome_iff_exists.mp hsome
  have hrun : get_or_create_thread s user (some tid) = .ok (s, t') := by
    simp only [get_or_create_thread]
    rw [if_pos h0, hf]
  constructor
  · rw [process_message, hrun]
    rfl
  · intro s' m h
    rw [process_message, hrun] at h
    simp only [create_chat_message, Except.ok.injEq, Prod.mk.injEq] at h
    obtain ⟨hs', hm⟩ := h
    subst hs'
    constructor
    · simp
    · rfl

/-- Witness for C8 at a concrete archived thread. -/
theorem archived_thread_accepts_messages_witness :
    (process_message c8State 1 "hello" (some 1) (GenResult.ok "reply")).isOk = true
    ∧ (c8After.messages.length = c8State.messages.length + 2
        ∧ c8After.threads = c8State.threads) :=
  ⟨(archived_thread_accepts_messages c8State 1 1 "hello" (GenResult.ok "reply")
      ⟨1, 1, none, "T", "archived"⟩ (by decide) rfl rfl rfl (by decide)).1,
   (archived_thread_accepts_messages c8State 1 1 "hello" (GenResult.ok "reply")
      ⟨1, 1, none, "T", "archived"⟩ (by decide) rfl rfl rfl (by decide)).2
     c8After c8Msg (by decide)⟩

/-- C8 is false as stated: sending a message to an archived thread appends
two new messages to it. -/
theorem archived_thread_message_ce :
    (c8State.threads.all (fun t => t.status = "archived")) = true
    ∧ process_message c8State 1 "hello" (some 1) (GenResult.ok "reply")
        = .ok (c8After, c8Msg)
    ∧ c8After.messages.length = c8State.messages.length + 2 := by
  refine ⟨by decide, by decide, by decide⟩

/-! ## C2: the apply step -/

theorem createNewTopics_spec (user : ℕ) (pts : List PTopic) :
    ∀ s m b s1 m1 b1, createNewTopics user pts s m b = .ok (s1, m1, b1) →
      s1.topics.map (fun t => (t.user_id, t.topic_name))
        = s.topics.map (fun t => (t.user_id, t.topic_name))
          ++ (pts.filter (fun pt => pt.is_new)).map (fun pt => (user, pt.topic_name))
      ∧ s1.entries = s.entries := by
  induction pts with
  | nil =>
    intro s m b s1 m1 b1 h
    cases h
    simp
  | cons pt rest ih =>
    intro s m b s1 m1 b1 h
    simp only [createNewTopics] at h
    by_cases hn : pt.is_new
    · rw [if_pos hn] at h
      cases hb : tick b with
      | error e => simp [hb] at h
      | ok b' =>
        simp only [hb] at h
        have hrec := ih _ _ _ _ _ _ h
        refine ⟨?_, hrec.2⟩
        rw [hrec.1]
        simp [hn, List.filter_cons]
    · rw [if_neg hn] at h
      have hrec := ih _ _ _ _ _ _ h
      refine ⟨?_, hrec.2⟩
      rw [hrec.1]
      simp [hn, List.filter_cons]

theorem moveEntriesOfTopic_topics (user : ℕ) (target : Option ℕ)
    (pes : List PEntry) :
    ∀ s b s' b', moveEntriesOfTopic user target pes s b = .ok (s', b') →
      s'.topics = s.topics := by
  induction pes with
  | nil => intro s b s' b' h; cases h; rfl
  | cons pe rest ih =>
    intro s b s' b' h
    simp only [moveEntriesOfTopic] at h
    by_cases hc : pe.current_topic_id ≠ target
    · rw [if_pos hc] at h
      cases hb : tick b with
      | error e => simp [hb] at h
      | ok b'' =>
        simp only [hb] at h
        have := ih _ _ _ _ h
        simpa [setEntryTopic] using this
    · rw [if_neg hc] at h
      exact ih _ _ _ _ h

theorem moveEntries_topics (user : ℕ) (m : List (String × ℕ))
    (pts : List PTopic) :
    ∀ s b s' b', moveEntries user m pts s b = .ok (s', b') →
      s'.topics = s.topics := by
  induction pts with
  | nil => intro s b s' b' h; cases h; rfl
  | cons pt rest ih =>
    intro s b s' b' h
    simp only [moveEntries] at h
    cases htg : (if pt.is_new then
        match m.lookup pt.topic_name with
        | some tid => (.ok (some tid) : Except Unit (Option ℕ))
        | none => .error ()
      else .ok pt.topic_id) with
    | error e => simp [htg] at h
    | ok target =>
      simp only [htg] at h
      cases hmv : moveEntriesOfTopic user target pt.entries s b with
      | error e => simp [hmv] at h
      | ok p =>
        obtain ⟨s0, b0⟩ := p
        simp only [hmv] at h
        rw [ih _ _ _ _ h]
        exact moveEntriesOfTopic_topics user target pt.entries _ _ _ _ hmv

theorem uncategorizeEntries_topics (user : ℕ) (pes : List PEntry) :
    ∀ s b s' b', uncategorizeEntries user pes s b = .ok (s', b') →
      s'.topics = s.topics := by
  induction pes with
  | nil => intro s b s' b' h; cases h; rfl
  | cons pe rest ih =>
    intro s b s' b' h
    simp only [uncategorizeEntries] at h
    cases hb : tick b with
    | error e => simp [hb] at h
    | ok b'' =>
      simp only [hb] at h
      have := ih _ _ _ _ h
      simpa [setEntryTopic] using this

/-- C2 (amended): apply_categorization is transactional: on any failure
(at whatever storage operation, modelled by every possible budget) the
visible state is exactly the input state - no new topic and no reassignment
survives; on success the stored topics are the old ones followed by one
topic per is_new proposal, owned by the caller, in proposal order, and
every stored entry references an existing topic or none (the foreign key
holds, so no entry references a topic that was not created).  The code
does not, however, check that an existing proposed topic id belongs to the
caller - that conjunct of the original claim is dropped. -/
theorem apply_categorization_atomic (s : DBState) (user : ℕ)
    (changes : ApplyChanges) (budget : Option ℕ) :
    ((apply_categorization s user changes budget).1.isOk = false →
      (apply_categorization s user changes budget).2 = s)
    ∧ (∀ s', (apply_categorization s user changes budget).1 = .ok s' →
        (apply_categorization s user changes budget).2 = s'
        ∧ s'.topics.map (fun t => (t.user_id, t.topic_name))
            = s.topics.map (fun t => (t.user_id, t.topic_name))
              ++ (changes.proposed_topics.filter (fun pt => pt.is_new)).map
                  (fun pt => (user, pt.topic_name))
        ∧ fkOk s' = true) := by
  cases hr : runApply s user changes budget with
  | error e =>
    refine ⟨?_, ?_⟩
    · intro _
      simp [apply_categorization, hr]
    · intro s' h
      simp [apply_categorization, hr] at h
  | ok s0 =>
    refine ⟨?_, ?_⟩
    · intro habs
      simp [apply_categorization, hr, Except.isOk, Except.toBool] at habs
    · intro s' h
      simp only [apply_categorization, hr, Except.ok.injEq] at h
      subst h
      refine ⟨by simp [apply_categorization, hr], ?_, ?_⟩
      · rw [runApply] at hr
        cases hc : createNewTopics user changes.proposed_topics s [] budget with
        | error e => simp [hc] at hr
        | ok p1 =>
          obtain ⟨s1, m, b1⟩ := p1
          simp only [hc] at hr
          cases hm : moveEntries user m changes.proposed_topics s1 b1 with
          | error e => simp [hm] at hr
          | ok p2 =>
            obtain ⟨s2, b2⟩ := p2
            simp only [hm] at hr
            cases hu : uncategorizeEntries user changes.uncategorized_entries s2 b2 with
            | error e => simp [hu] at hr
            | ok p3 =>
              obtain ⟨s3, b3⟩ := p3
              simp only [hu] at hr
              cases ht : tick b3 with
              | error e => simp [ht] at hr
              | ok b4 =>
                simp only [ht] at hr
                split at hr
                · cases hr
                  have e3 := uncategorizeEntries_topics user
                    changes.uncategorized_entries _ _ _ _ hu
                  have e2 := moveEntries_topics user m
                    changes.proposed_topics _ _ _ _ hm
                  have e1 := (createNewTopics_spec user
                    changes.proposed_topics _ _ _ _ _ _ hc).1
                  rw [e3, e2, e1]
                · exact absurd hr (by simp)
      · rw [runApply] at hr
        cases hc : createNewTopics user changes.proposed_topics s [] budget with
        | error e => simp [hc] at hr
        | ok p1 =>
          obtain ⟨s1, m, b1⟩ := p1
          simp only [hc] at hr
          cases hm : moveEntries user m changes.proposed_topics s1 b1 with
          | error e => simp [hm] at hr
          | ok p2 =>
            obtain ⟨s2, b2⟩ := p2
            simp only [hm] at hr
            cases hu : uncategorizeEntries user changes.uncategorized_entries s2 b2 with
            | error e => simp [hu] at hr
            | ok p3 =>
              obtain ⟨s3, b3⟩ := p3
              simp only [hu] at hr
              cases ht : tick b3 with
              | error e => simp [ht] at hr
              | ok b4 =>
                simp only [ht] at hr
                split at hr
                · cases hr; assumption
                · exact absurd hr (by simp)

/-- Witness for C2: a run failing at the first storage operation rolls back
to the input state, and a run with no injected failure commits the created
topic. -/
theorem apply_categorization_atomic_witness :
    ((apply_categorization c2wState 1 c2wChanges (some 0)).1.isOk = false
      ∧ (apply_categorization c2wState 1 c2wChanges (some 0)).2 = c2wState)
    ∧ ((apply_categorization c2wState 1 c2wChanges none).1 = .ok c2wAfter
      ∧ ((apply_categorization c2wState 1 c2wChanges none).2 = c2wAfter
          ∧ c2wAfter.topics.map (fun t => (t.user_id, t.topic_name))
              = c2wState.topics.map (fun t => (t.user_id, t.topic_name))
                ++ (c2wChanges.proposed_topics.filter (fun pt => pt.is_new)).map
                    (fun pt => (1, pt.topic_name))
          ∧ fkOk c2wAfter = true)) :=
  ⟨⟨by decide,
    (apply_categorization_atomic c2wState 1 c2wChanges (some 0)).1 (by decide)⟩,
   ⟨by decide,
    (apply_categorization_atomic c2wState 1 c2wChanges none).2 c2wAfter (by decide)⟩⟩

/-- C2 is false as stated: a committed apply run leaves user 2's entry
referencing topic 10, which belongs to user 1 - ownership of an existing
proposed topic id is never verified. -/
theorem apply_cross_owner_ce :
    apply_categorization c2State 2 c2Changes none = (.ok c2After, c2After)
    ∧ (⟨20, 2, some 10, "c"⟩ : Entry) ∈ c2After.entries
    ∧ ∀ t ∈ c2After.topics, t.topic_id = 10 → t.user_id ≠ 2 := by
  refine ⟨by decide, by decide, by decide⟩

/-! ## C3, C7, C9: the recategorization engine

Invariant and shape lemmas for the proposal-building folds. -/

theorem appendEntryById_inv (P : ℕ → Prop) (tid : ℕ) (pe : PEntry) :
    ∀ ts ts', appendEntryById ts tid pe = some ts' →
      (∀ t ∈ ts, ∀ q ∈ t.entries, P q.entry_id) → P pe.entry_id →
      ∀ t ∈ ts', ∀ q ∈ t.entries, P q.entry_id := by
  intro ts
  induction ts with
  | nil => intro ts' h; simp [appendEntryById] at h
  | cons t0 rest ih =>
    intro ts' h hinv hpe
    simp only [appendEntryById] at h
    by_cases hc : t0.topic_id = some tid
    · rw [if_pos hc] at h
      cases h
      intro t ht
      rcases List.mem_cons.mp ht with ht0 | htr
      · subst ht0
        intro q hq
        rcases List.mem_append.mp hq with hq0 | hq1
        · exact hinv t0 (List.mem_cons_self _ _) q hq0
        · rw [List.mem_singleton.mp hq1]; exact hpe
      · exact hinv t (List.mem_cons_of_mem _ htr)
    · rw [if_neg hc] at h
      cases hm : appendEntryById rest tid pe with
      | none => rw [hm] at h; simp at h
      | some rest' =>
        rw [hm] at h
        obtain rfl := (Option.some.inj h).symm
        intro t ht
        rcases List.mem_cons.mp ht with ht0 | htr
        · rw [ht0]; exact hinv t0 (List.mem_cons_self _ _)
        · exact ih rest' hm
            (fun t' ht' => hinv t' (List.mem_cons_of_mem _ ht')) hpe t htr

theorem appendEntryById_shape (tid : ℕ) (pe : PEntry) :
    ∀ ts ts', appendEntryById ts tid pe = some ts' →
      ts'.map (fun t => (t.topic_id, t.topic_name, t.is_new))
        = ts.map (fun t => (t.topic_id, t.topic_name, t.is_new)) := by
  intro ts
  induction ts with
  | nil => intro ts' h; simp [appendEntryById] at h
  | cons t0 rest ih =>
    intro ts' h
    simp only [appendEntryById] at h
    by_cases hc : t0.topic_id = some tid
    · rw [if_pos hc] at h
      cases h
      simp
    · rw [if_neg hc] at h
      cases hm : appendEntryById rest tid pe with
      | none => rw [hm] at h; simp at h
      | some rest' =>
        rw [hm] at h
        obtain rfl := (Option.some.inj h).symm
        simp [ih rest' hm]

theorem addKeptEntries_inv (P : ℕ → Prop) (keep : List ℕ) :
    ∀ es ts acc ts' ids', addKeptEntries keep es ts acc = .ok (ts', ids') →
      (∀ t ∈ ts, ∀ q ∈ t.entries, P q.entry_id) →
      (∀ e ∈ es, P e.entry_id) →
      ∀ t ∈ ts', ∀ q ∈ t.entries, P q.entry_id := by
  intro es
  induction es with
  | nil => intro ts acc ts' ids' h hinv _; cases h; exact hinv
  | cons e rest ih =>
    intro ts acc ts' ids' h hinv hes
    simp only [addKeptEntries] at h
    cases he : e.topic_id with
    | none =>
      simp only [he] at h
      exact ih _ _ _ _ h hinv (fun e' he' => hes e' (List.mem_cons_of_mem _ he'))
    | some tid =>
      simp only [he] at h
      by_cases hk : tid ∈ keep
      · rw [if_pos hk] at h
        cases ha : appendEntryById ts tid ⟨e.entry_id, e.content, some tid, some tid, 1⟩ with
        | none => rw [ha] at h; simp at h
        | some ts0 =>
          rw [ha] at h
          exact ih _ _ _ _ h
            (appendEntryById_inv P tid _ ts ts0 ha hinv
              (hes e (List.mem_cons_self _ _)))
            (fun e' he' => hes e' (List.mem_cons_of_mem _ he'))
      · rw [if_neg hk] at h
        exact ih _ _ _ _ h hinv (fun e' he' => hes e' (List.mem_cons_of_mem _ he'))

theorem addKeptEntries_shape (keep : List ℕ) :
    ∀ es ts acc ts' ids', addKeptEntries keep es ts acc = .ok (ts', ids') →
      ts'.map (fun t => (t.topic_id, t.topic_name, t.is_new))
        = ts.map (fun t => (t.topic_id, t.topic_name, t.is_new)) := by
  intro es
  induction es with
  | nil => intro ts acc ts' ids' h; cases h; rfl
  | cons e rest ih =>
    intro ts acc ts' ids' h
    simp only [addKeptEntries] at h
    cases he : e.topic_id with
    | none =>
      simp only [he] at h
      exact ih _ _ _ _ h
    | some tid =>
      simp only [he] at h
      by_cases hk : tid ∈ keep
      · rw [if_pos hk] at h
        cases ha : appendEntryById ts tid ⟨e.entry_id, e.content, some tid, some tid, 1⟩ with
        | none => rw [ha] at h; simp at h
        | some ts0 =>
          rw [ha] at h
          rw [ih _ _ _ _ h, appendEntryById_shape tid _ ts ts0 ha]
      · rw [if_neg hk] at h
        exact ih _ _ _ _ h

theorem assignToTopic_inv (P : ℕ → Prop) (a : Assignment) (e : Entry) :
    ∀ ts ts', assignToTopic ts a e = some ts' →
      (∀ t ∈ ts, ∀ q ∈ t.entries, P q.entry_id) → P e.entry_id →
      ∀ t ∈ ts', ∀ q ∈ t.entries, P q.entry_id := by
  intro ts
  induction ts with
  | nil => intro ts' h; simp [assignToTopic] at h
  | cons t0 rest ih =>
    intro ts' h hinv hpe
    simp only [assignToTopic] at h
    by_cases hc : t0.topic_name = a.topic_name
    · rw [if_pos hc] at h
      cases h
      intro t ht
      rcases List.mem_cons.mp ht with ht0 | htr
      · subst ht0
        intro q hq
        rcases List.mem_append.mp hq with hq0 | hq1
        · exact hinv t0 (List.mem_cons_self _ _) q hq0
        · rw [List.mem_singleton.mp hq1]; exact hpe
      · exact hinv t (List.mem_cons_of_mem _ htr)
    · rw [if_neg hc] at h
      cases hm : assignToTopic rest a e with
      | none => rw [hm] at h; simp at h
      | some rest' =>
        rw [hm] at h
        obtain rfl := (Option.some.inj h).symm
        intro t ht
        rcases List.mem_cons.mp ht with ht0 | htr
        · rw [ht0]; exact hinv t0 (List.mem_cons_self _ _)
        · exact ih rest' hm
            (fun t' ht' => hinv t' (List.mem_cons_of_mem _ ht')) hpe t htr

theorem assignToTopic_shape (a : Assignment) (e : Entry) :
    ∀ ts ts', assignToTopic ts a e = some ts' →
      ts'.map (fun t => (t.topic_id, t.topic_name, t.is_new))
        = ts.map (fun t => (t.topic_id, t.topic_name, t.is_new)) := by
  intro ts
  induction ts with
  | nil => intro ts' h; simp [assignToTopic] at h
  | cons t0 rest ih =>
    intro ts' h
    simp only [assignToTopic] at h
    by_cases hc : t0.topic_name = a.topic_name
    · rw [if_pos hc] at h
      cases h
      simp
    · rw [if_neg hc] at h
      cases hm : assignToTopic rest a e with
      | none => rw [hm] at h; simp at h
      | some rest' =>
        rw [hm] at h
        obtain rfl := (Option.some.inj h).symm
        simp [ih rest' hm]

theorem processAssignments_inv (P : ℕ → Prop) (etc : List Entry)
    (hetc : ∀ e ∈ etc, P e.entry_id) :
    ∀ asgs ts ts', processAssignments etc asgs ts = .ok ts' →
      (∀ t ∈ ts, ∀ q ∈ t.entries, P q.entry_id) →
      ∀ t ∈ ts', ∀ q ∈ t.entries, P q.entry_id := by
  intro asgs
  induction asgs with
  | nil => intro ts ts' h hinv; cases h; exact hinv
  | cons a rest ih =>
    intro ts ts' h hinv
    simp only [processAssignments] at h
    cases hf : etc.find? (fun e => e.entry_id = a.entry_id) with
    | none => simp [hf] at h
    | some e =>
      simp only [hf] at h
      cases hat : assignToTopic ts a e with
      | none => simp [hat] at h
      | some ts0 =>
        simp only [hat] at h
        exact ih _ _ h
          (assignToTopic_inv P a e ts ts0 hat hinv
            (hetc e (List.mem_of_find?_eq_some hf)))

theorem processAssignments_shape (etc : List Entry) :
    ∀ asgs ts ts', processAssignments etc asgs ts = .ok ts' →
      ts'.map (fun t => (t.topic_id, t.topic_name, t.is_new))
        = ts.map (fun t => (t.topic_id, t.topic_name, t.is_new)) := by
  intro asgs
  induction asgs with
  | nil => intro ts ts' h; cases h; rfl
  | cons a rest ih =>
    intro ts ts' h
    simp only [processAssignments] at h
    cases hf : etc.find? (fun e => e.entry_id = a.entry_id) with
    | none => simp [hf] at h
    | some e =>
      simp only [hf] at h
      cases hat : assignToTopic ts a e with
      | none => simp [hat] at h
      | some ts0 =>
        simp only [hat] at h
        rw [ih _ _ h, assignToTopic_shape a e ts ts0 hat]

theorem confUpdate_shape (ts : List PTopic) :
    (ts.map (fun t =>
      if t.is_new && !t.entries.isEmpty then
        { t with confidence_score := meanConfidence t.entries }
      else t)).map (fun t => (t.topic_id, t.topic_name, t.is_new))
    = ts.map (fun t => (t.topic_id, t.topic_name, t.is_new)) := by
  induction ts with
  | nil => rfl
  | cons t rest ih =>
    simp only [List.map_cons, ih]
    by_cases hc : (t.is_new && !t.entries.isEmpty) = true
    · rw [if_pos hc]
    · rw [if_neg hc]

theorem confUpdate_entries (ts : List PTopic) (t' : PTopic)
    (h : t' ∈ ts.map (fun t =>
      if t.is_new && !t.entries.isEmpty then
        { t with confidence_score := meanConfidence t.entries }
      else t)) :
    ∃ t ∈ ts, t'.entries = t.entries := by
  rcases List.mem_map.mp h with ⟨t, ht, hmap⟩
  refine ⟨t, ht, ?_⟩
  by_cases hc : (t.is_new && !t.entries.isEmpty) = true
  · rw [if_pos hc] at hmap; rw [← hmap]
  · rw [if_neg hc] at hmap; rw [← hmap]

/-- C3 (amended): in every successful recategorization output,
uncategorized_entries is empty and every entry id listed in any proposed
topic is an input entry id (no entry is invented); but an input entry whose
oracle assignment records are all invalid is silently dropped - it appears
nowhere in the output - so the output need not cover the input set. -/
theorem analyze_output_ids_subset (entries : List Entry)
    (existing_topics : List Topic) (topics_to_keep : List ℕ)
    (instructions : Option String) (oracle1 : Option (List String))
    (oracle2 : List AssignLine) (out : AnalyzeOutput)
    (h : analyze_categorization entries existing_topics topics_to_keep
          instructions oracle1 oracle2 = .ok out) :
    out.uncategorized_entries = []
    ∧ ∀ i ∈ outputEntryIds out, i ∈ entries.map (fun e => e.entry_id) := by
  unfold analyze_categorization at h
  dsimp only [] at h
  split at h
  · exact absurd h (by simp)
  · rename_i p1 kids heq
    split at h
    · exact absurd h (by simp)
    · rename_i pf heq2
      rw [Except.ok.injEq] at h
      subst h
      refine ⟨rfl, ?_⟩
      have hinv0 : ∀ t ∈ (existing_topics.filter
            (fun t => t.topic_id ∈ topics_to_keep)).map
              (fun t => (⟨some t.topic_id, t.topic_name, false, [], 1⟩ : PTopic)),
          ∀ q ∈ t.entries, q.entry_id ∈ entries.map (fun e => e.entry_id) := by
        intro t ht q hq
        rcases List.mem_map.mp ht with ⟨tp, _, rfl⟩
        simp at hq
      have hinv1 := addKeptEntries_inv
        (fun i => i ∈ entries.map (fun e => e.entry_id)) topics_to_keep
        entries _ [] p1 kids heq hinv0
        (fun e he => List.mem_map_of_mem _ he)
      have hinvf : ∀ t ∈ pf, ∀ q ∈ t.entries,
          q.entry_id ∈ entries.map (fun e => e.entry_id) := by
        split at heq2
        · rw [Except.ok.injEq] at heq2
          subst heq2
          exact hinv1
        · split at heq2
          · exact absurd heq2 (by simp)
          · rename_i p3 heq3
            rw [Except.ok.injEq] at heq2
            subst heq2
            have hinv2 : ∀ t ∈ p1 ++
                (get_proposed_topics
                  (existing_topics.filter (fun t => t.topic_id ∈ topics_to_keep))
                  (entries.filter (fun e => e.entry_id ∈ kids))
                  (entries.filter (fun e => e.entry_id ∉ kids)) oracle1).map
                    (fun nm => (⟨none, nm, true, [], 0⟩ : PTopic)),
                ∀ q ∈ t.entries, q.entry_id ∈ entries.map (fun e => e.entry_id) := by
              intro t ht
              rcases List.mem_append.mp ht with hl | hr
              · exact hinv1 t hl
              · intro q hq
                rcases List.mem_map.mp hr with ⟨nm, _, rfl⟩
                simp at hq
            have hinv3 := processAssignments_inv
              (fun i => i ∈ entries.map (fun e => e.entry_id))
              (entries.filter (fun e => e.entry_id ∉ kids))
              (fun e he => List.mem_map_of_mem _ (List.mem_of_mem_filter he))
              _ _ p3 heq3 hinv2
            intro t' ht' q hq
            rcases confUpdate_entries p3 t' ht' with ⟨t, ht, hent⟩
            exact hinv3 t ht q (hent ▸ hq)
      intro i hi
      simp only [outputEntryIds, List.map_nil, List.append_nil,
        List.mem_flatten, List.mem_map] at hi
      rcases hi with ⟨l, ⟨t, ht, rfl⟩, hq⟩
      rcases List.mem_map.mp hq with ⟨q, hq', rfl⟩
      exact hinvf t (List.mem_of_mem_filter ht) q hq'

/-- Witness for C3 at a concrete successful run where the kept topic keeps
its single entry. -/
theorem analyze_output_ids_subset_witness :
    (⟨[⟨some 1, "A", false, [⟨1, "x", some 1, some 1, 1⟩], 1⟩], [], none⟩ :
        AnalyzeOutput).uncategorized_entries = []
    ∧ ∀ i ∈ outputEntryIds
        ⟨[⟨some 1, "A", false, [⟨1, "x", some 1, some 1, 1⟩], 1⟩], [], none⟩,
        i ∈ ([⟨1, 1, some 1, "x"⟩] : List Entry).map (fun e => e.entry_id) :=
  analyze_output_ids_subset [⟨1, 1, some 1, "x"⟩] [⟨1, 1, "A"⟩] [1] none
    none [] ⟨[⟨some 1, "A", false, [⟨1, "x", some 1, some 1, 1⟩], 1⟩], [], none⟩
    (by decide)

/-- C3 is false as stated: with one input entry, no kept topic and an
unparseable assignment reply, recategorization succeeds with an output
covering no entry at all - the input entry is dropped rather than listed
anywhere (uncategorized_entries is always empty). -/
theorem analyze_drops_unassigned_ce :
    analyze_categorization [⟨1, 1, none, "x"⟩] [] [] none (some ["T"]) [.noBar]
      = .ok ⟨[], [], none⟩
    ∧ outputEntryIds ⟨[], [], none⟩ = []
    ∧ ¬ (outputEntryIds ⟨[], [], none⟩).Perm
          (([⟨1, 1, none, "x"⟩] : List Entry).map (fun e => e.entry_id)) := by
  refine ⟨by decide, rfl, by decide⟩

/-- C7: in every successful recategorization output, a proposed new topic
with zero assigned entries has been discarded, while a topic kept via
topics_to_keep is always present - even with zero entries - as a non-new
topic carrying its original id. -/
theorem analyze_discards_only_empty_new (entries : List Entry)
    (existing_topics : List Topic) (topics_to_keep : List ℕ)
    (instructions : Option String) (oracle1 : Option (List String))
    (oracle2 : List AssignLine) (out : AnalyzeOutput)
    (h : analyze_categorization entries existing_topics topics_to_keep
          instructions oracle1 oracle2 = .ok out) :
    (∀ pt ∈ out.proposed_topics, pt.is_new = true → pt.entries ≠ [])
    ∧ (∀ t ∈ existing_topics, t.topic_id ∈ topics_to_keep →
        ∃ pt ∈ out.proposed_topics,
          pt.topic_id = some t.topic_id ∧ pt.is_new = false) := by
  unfold analyze_categorization at h
  dsimp only [] at h
  split at h
  · exact absurd h (by simp)
  · rename_i p1 kids heq
    split at h
    · exact absurd h (by simp)
    · rename_i pf heq2
      rw [Except.ok.injEq] at h
      subst h
      constructor
      · intro pt hpt hnew
        have hp := (List.mem_filter.mp hpt).2
        intro hnil
        simp [hnew, hnil] at hp
      · intro t ht hkeep
        have hshape1 := addKeptEntries_shape topics_to_keep entries _ [] p1 kids heq
        have hshapef :
            (p1.map (fun t => (t.topic_id, t.topic_name, t.is_new))).Sublist
              (pf.map (fun t => (t.topic_id, t.topic_name, t.is_new))) := by
          split at heq2
          · rw [Except.ok.injEq] at heq2
            subst heq2
            exact List.Sublist.refl _
          · split at heq2
            · exact absurd heq2 (by simp)
            · rename_i p3 heq3
              rw [Except.ok.injEq] at heq2
              subst heq2
              rw [confUpdate_shape, processAssignments_shape _ _ _ _ heq3,
                List.map_append]
              exact List.sublist_append_left _ _
        have htriple : (some t.topic_id, t.topic_name, false) ∈
            p1.map (fun t => (t.topic_id, t.topic_name, t.is_new)) := by
          rw [hshape1]
          have htk : t ∈ existing_topics.filter
              (fun t => t.topic_id ∈ topics_to_keep) :=
            List.mem_filter.mpr ⟨ht, by simpa using hkeep⟩
          rw [List.map_map]
          exact List.mem_map_of_mem _ htk
        have htriplef : (some t.topic_id, t.topic_name, false) ∈
            pf.map (fun t => (t.topic_id, t.topic_name, t.is_new)) :=
          hshapef.subset htriple
        rcases List.mem_map.mp htriplef with ⟨pt, hpt, hsh⟩
        have h1 : pt.topic_id = some t.topic_id := congrArg Prod.fst hsh
        have h3 : pt.is_new = false := congrArg (fun p => p.2.2) hsh
        refine ⟨pt, ?_, h1, h3⟩
        exact List.mem_filter.mpr ⟨hpt, by simp [h3]⟩

/-- Witness for C7: the kept topic A survives with its entry; no new topic
exists. -/
theorem analyze_discards_only_empty_new_witness :
    (∀ pt ∈ (⟨[⟨some 1, "A", false, [⟨1, "x", some 1, some 1, 1⟩], 1⟩], [],
          none⟩ : AnalyzeOutput).proposed_topics,
        pt.is_new = true → pt.entries ≠ [])
    ∧ (∀ t ∈ ([⟨1, 1, "A"⟩] : List Topic), t.topic_id ∈ [1] →
        ∃ pt ∈ (⟨[⟨some 1, "A", false, [⟨1, "x", some 1, some 1, 1⟩], 1⟩], [],
            none⟩ : AnalyzeOutput).proposed_topics,
          pt.topic_id = some t.topic_id ∧ pt.is_new = false) :=
  analyze_discards_only_empty_new [⟨1, 1, some 1, "x"⟩] [⟨1, 1, "A"⟩] [1]
    none none []
    ⟨[⟨some 1, "A", false, [⟨1, "x", some 1, some 1, 1⟩], 1⟩], [], none⟩
    (by decide)

/-! ## C9 -/

/-- C9 (amended): the candidate new topic names are filtered
case-insensitively against the kept topics' labels only (and empty lines
are removed); a candidate equal to a non-kept existing label survives. -/
theorem get_proposed_topics_filters_kept (kept_topics : List Topic)
    (kept_entries entries_to_categorize : List Entry) (ls : List String)
    (hne : entries_to_categorize ≠ []) :
    ∀ name ∈ get_proposed_topics kept_topics kept_entries
        entries_to_categorize (some ls),
      name ≠ "" ∧ ∀ t ∈ kept_topics, lowerStr name ≠ lowerStr t.topic_name := by
  intro name hmem
  unfold get_proposed_topics at hmem
  rw [if_neg (by simpa using hne)] at hmem
  simp only [List.mem_filterMap] at hmem
  obtain ⟨line, _, hsome⟩ := hmem
  by_cases hc : trimStr line ≠ "" ∧
      lowerStr (trimStr line) ∉ kept_topics.map (fun t => lowerStr t.topic_name)
  · rw [if_pos hc] at hsome
    cases hsome
    exact ⟨hc.1, fun t ht heq => hc.2 (heq ▸ List.mem_map_of_mem _ ht)⟩
  · rw [if_neg hc] at hsome
    exact absurd hsome (by simp)

/-- Witness for C9 at a concrete candidate list. -/
theorem get_proposed_topics_filters_kept_witness :
    ("health" ∈ get_proposed_topics [⟨1, 1, "Work"⟩] []
        [⟨3, 1, none, "walked"⟩] (some ["health"]))
    ∧ ("health" ≠ ""
        ∧ ∀ t ∈ [(⟨1, 1, "Work"⟩ : Topic)],
            lowerStr "health" ≠ lowerStr t.topic_name) :=
  ⟨by decide,
   get_proposed_topics_filters_kept [⟨1, 1, "Work"⟩] [] [⟨3, 1, none, "walked"⟩]
     ["health"] (by decide) "health" (by decide)⟩

/-- C9 is false as stated: with existing topics Work (kept) and Health (not
kept), the oracle candidate "health" survives the filter exactly as
recategorization computes it (the filter set is built from kept topics
only), although it equals the existing label "Health" case-insensitively. -/
theorem get_proposed_topics_nonkept_ce :
    get_proposed_topics
      (([⟨1, 1, "Work"⟩, ⟨2, 1, "Health"⟩] : List Topic).filter
        (fun t => t.topic_id ∈ [1]))
      [] [⟨3, 1, none, "walked"⟩] (some ["health"]) = ["health"]
    ∧ (⟨2, 1, "Health"⟩ : Topic) ∈
        ([⟨1, 1, "Work"⟩, ⟨2, 1, "Health"⟩] : List Topic)
    ∧ (2 : ℕ) ∉ ([1] : List ℕ)
    ∧ lowerStr "health" = lowerStr "Health" := by
  refine ⟨by decide, by decide, by decide, by decide⟩

end Cognify
